import Mathlib

/-!
Verification of the channel-splitter script `scripts/gltf_to_obj_texture.py`
(function `split_metallic_roughness`) against its natural-language
specification.

The script, given a selected file path, does:
  1. `img = Image.open(file_path)`                      (Loader)
  2. `if img.mode != 'RGB': img = img.convert('RGB')`   (Normalizer)
  3. `r, g, b = img.split()`                            (Extractor)
  4. derive `<name>_AO.png`, `<name>_Roughness.png`, `<name>_Metallic.png`
     next to the source via `os.path.split` / `os.path.splitext` /
     `os.path.join`, then `r.save`, `g.save`, `b.save`  (Writer)

Everything below is a shallow embedding of that code: paths are `List Char`
(POSIX separators), images are concrete pixel buffers, PIL operations
(`convert`, `split`, `open`, `save`) are modelled by their documented
behaviour on the modes the spec discusses, and the filesystem is a partial
map from paths to file contents.
-/

/-- Python string, modelled as a list of characters. -/
abbrev PathStr := List Char

/-- PIL image modes covering the layouts the claims discuss: grayscale `L`,
grayscale with alpha `LA`, palette-indexed `P`, `RGB`, and `RGBA`. -/
inductive Mode where
  | L
  | LA
  | P
  | RGB
  | RGBA
deriving DecidableEq, Repr

/-- Number of channels stored per pixel for each mode. -/
def numChannels : Mode → Nat
  | Mode.L => 1
  | Mode.LA => 2
  | Mode.P => 1
  | Mode.RGB => 3
  | Mode.RGBA => 4

/-- An in-memory PIL image: a mode, dimensions, a palette (used only by
mode `P`), and a row-major list of pixels, each pixel a list of channel
values. -/
structure PImage where
  mode : Mode
  width : Nat
  height : Nat
  palette : List (Nat × Nat × Nat)
  pixels : List (List Nat)
deriving DecidableEq, Repr

/-- Well-formedness: the buffer holds `width * height` pixels and every
pixel carries exactly the number of channels its mode prescribes. -/
def PImage.wf (img : PImage) : Prop :=
  img.pixels.length = img.width * img.height ∧
  ∀ px ∈ img.pixels, px.length = numChannels img.mode

instance (img : PImage) : Decidable img.wf := by
  unfold PImage.wf; infer_instance

/-- Pixel accessor: channel values at `(x, y)`, row-major. -/
def PImage.getpx (img : PImage) (x y : Nat) : List Nat :=
  img.pixels.getD (y * img.width + x) []

/-- PIL `Image.convert('RGB')` acting on one pixel: grayscale (`L`, `LA`)
replicates the luminance value into all three channels (alpha dropped);
palette mode `P` resolves the stored index through the palette; `RGB` is
returned as is; `RGBA` drops the alpha channel. -/
def convertPixelRGB (mode : Mode) (pal : List (Nat × Nat × Nat)) (px : List Nat) : List Nat :=
  match mode with
  | Mode.L => [px.getD 0 0, px.getD 0 0, px.getD 0 0]
  | Mode.LA => [px.getD 0 0, px.getD 0 0, px.getD 0 0]
  | Mode.P =>
      let c := pal.getD (px.getD 0 0) (0, 0, 0)
      [c.1, c.2.1, c.2.2]
  | Mode.RGB => px
  | Mode.RGBA => px.take 3

/-- PIL `img.convert('RGB')`: same dimensions, mode `RGB`, every pixel
converted by `convertPixelRGB`. -/
def convertRGB (img : PImage) : PImage :=
  { mode := Mode.RGB
    width := img.width
    height := img.height
    palette := []
    pixels := img.pixels.map (convertPixelRGB img.mode img.palette) }

/-- The Normalizer, exactly the source's
`if img.mode != 'RGB': img = img.convert('RGB')`. -/
def normalizeRGB (img : PImage) : PImage :=
  if img.mode = Mode.RGB then img else convertRGB img

/-- One band of `img.split()`: a single-channel (`L`) image holding channel
`i` of every pixel. -/
def getBand (img : PImage) (i : Nat) : PImage :=
  { mode := Mode.L
    width := img.width
    height := img.height
    palette := []
    pixels := img.pixels.map (fun px => [px.getD i 0]) }

/-- PIL `r, g, b = img.split()` on a three-channel image. -/
def imgSplit (img : PImage) : PImage × PImage × PImage :=
  (getBand img 0, getBand img 1, getBand img 2)

/-! ## Path functions (`posixpath.split`, `splitext`, `join`) -/

/-- The part of the path after the last separator (`os.path.split`'s tail). -/
def pathTail (p : PathStr) : PathStr :=
  (p.reverse.takeWhile (fun c => c ≠ '/')).reverse

/-- The part of the path up to and including the last separator
(`head, tail = p[:i], p[i:]` with `i = p.rfind('/') + 1`). -/
def pathHeadRaw (p : PathStr) : PathStr :=
  (p.reverse.dropWhile (fun c => c ≠ '/')).reverse

/-- Python `s.rstrip('/')`. -/
def rstripSlash (l : PathStr) : PathStr :=
  (l.reverse.dropWhile (fun c => c = '/')).reverse

/-- `posixpath.split(p)`: split at the final separator; the head keeps its
trailing separators only when it consists solely of separators. -/
def osPathSplit (p : PathStr) : PathStr × PathStr :=
  if pathHeadRaw p ≠ [] ∧ ¬ (pathHeadRaw p).all (fun c => c = '/') then
    (rstripSlash (pathHeadRaw p), pathTail p)
  else (pathHeadRaw p, pathTail p)

/-- The characters after the last dot (reversed), used by `osPathSplitext`. -/
def extTailOf (p : PathStr) : PathStr := p.reverse.takeWhile (fun c => c ≠ '.')

/-- The candidate root: everything before the last dot. -/
def rootOf (p : PathStr) : PathStr := p.take (p.length - (extTailOf p).length - 1)

/-- Models `posixpath.splitext` for strings containing no path separator,
which is how the source applies it (to the filename component returned by
`os.path.split`): the extension starts at the last dot, unless every
character before that dot is itself a dot (so `.bashrc` has no extension). -/
def osPathSplitext (p : PathStr) : PathStr × PathStr :=
  if (extTailOf p).length = p.length then (p, [])
  else if (rootOf p).any (fun c => c ≠ '.') then (rootOf p, '.' :: (extTailOf p).reverse)
  else (p, [])

/-- `posixpath.join(folder, name)` for the two-argument case used by the
source. -/
def osPathJoin (folder name : PathStr) : PathStr :=
  if name.head? = some '/' then name
  else if folder = [] ∨ folder.getLast? = some '/' then folder ++ name
  else folder ++ '/' :: name

/-- Output path derived from source path `p` by appending `sfx` to the base
name, as in lines 25-31 of the script: split off the directory, drop the
extension, append the suffix, rejoin. -/
def derivedPath (p sfx : PathStr) : PathStr :=
  osPathJoin (osPathSplit p).1 ((osPathSplitext (osPathSplit p).2).1 ++ sfx)

/-- The `_AO.png` output path for source `p`. -/
def aoPath (p : PathStr) : PathStr := derivedPath p ("_AO.png").data

/-- The `_Roughness.png` output path for source `p`. -/
def roughnessPath (p : PathStr) : PathStr := derivedPath p ("_Roughness.png").data

/-- The `_Metallic.png` output path for source `p`. -/
def metallicPath (p : PathStr) : PathStr := derivedPath p ("_Metallic.png").data

/-! ## Filesystem and run model -/

/-- Contents of a file: either a decodable raster image, or bytes that
`Image.open` cannot decode (also standing for unreadable files). -/
inductive FileData where
  | image : PImage → FileData
  | bytes : List Nat → FileData
deriving DecidableEq

/-- A filesystem: a partial map from paths to file contents. -/
def FS := PathStr → Option FileData

/-- Writing (creating or overwriting) one file. -/
def fsWrite (fs : FS) (p : PathStr) (d : FileData) : FS :=
  fun q => if q = p then some d else fs q

/-- Deterministic model of PIL's PNG serialization of an image: a pure
function of the image content (PIL embeds no timestamp or other
nondeterministic data when saving PNG). -/
def encodePNG (img : PImage) : List Nat :=
  numChannels img.mode :: img.width :: img.height :: img.pixels.flatten

/-- Outcome of one run of `split_metallic_roughness`. -/
inductive RunResult where
  | noFile
  | loadError
  | writeError : PathStr → RunResult
  | ok : PathStr → PathStr → PathStr → RunResult
deriving DecidableEq

/-- The whole script, `split_metallic_roughness`, as a function of the
dialog's answer `file_path`, the filesystem, and the set `fail` of paths
whose write raises (permission denied, disk full, ...).  Mirrors the
source line by line: empty selection returns early; `Image.open` fails on
a missing or undecodable file; otherwise convert to RGB when needed,
split, derive the three output paths, and save the three bands in order
AO, Roughness, Metallic — a raised save exception aborts the run there,
leaving earlier writes on disk. -/
def split_metallic_roughness (fail : PathStr → Bool) (fs : FS) (file_path : PathStr) :
    FS × RunResult :=
  if file_path = [] then (fs, RunResult.noFile)
  else
    match fs file_path with
    | none => (fs, RunResult.loadError)
    | some (FileData.bytes _) => (fs, RunResult.loadError)
    | some (FileData.image img0) =>
        let img := normalizeRGB img0
        let r := (imgSplit img).1
        let g := (imgSplit img).2.1
        let b := (imgSplit img).2.2
        let ao_path := aoPath file_path
        let roughness_path := roughnessPath file_path
        let metallic_path := metallicPath file_path
        if fail ao_path then (fs, RunResult.writeError ao_path)
        else
          let fs1 := fsWrite fs ao_path (FileData.bytes (encodePNG r))
          if fail roughness_path then (fs1, RunResult.writeError roughness_path)
          else
            let fs2 := fsWrite fs1 roughness_path (FileData.bytes (encodePNG g))
            if fail metallic_path then (fs2, RunResult.writeError metallic_path)
            else
              (fsWrite fs2 metallic_path (FileData.bytes (encodePNG b)),
               RunResult.ok ao_path roughness_path metallic_path)

/-! ## Helper lemmas about the path functions -/

lemma mem_pathTail_ne_sep (p : PathStr) : ∀ c ∈ pathTail p, c ≠ '/' := by
  intro c hc
  unfold pathTail at hc
  rw [List.mem_reverse] at hc
  have h := List.mem_takeWhile_imp hc
  simpa using h

lemma pathHeadRaw_append_pathTail (p : PathStr) : pathHeadRaw p ++ pathTail p = p := by
  unfold pathHeadRaw pathTail
  rw [← List.reverse_append, List.takeWhile_append_dropWhile, List.reverse_reverse]

lemma getLast?_pathHeadRaw (p : PathStr) (h : pathHeadRaw p ≠ []) :
    (pathHeadRaw p).getLast? = some '/' := by
  unfold pathHeadRaw at h ⊢
  set D := p.reverse.dropWhile (fun c => c ≠ '/') with hD
  have hDne : D ≠ [] := by
    intro hnil
    rw [hnil] at h
    exact h rfl
  rw [List.getLast?_reverse]
  rw [List.head?_eq_head hDne]
  have := List.head_dropWhile_not (fun c => c ≠ '/') p.reverse (by rw [← hD]; exact hDne)
  simp only [← hD] at this
  simp only [decide_not, Bool.not_eq_false', decide_eq_true_eq] at this
  rw [this]

lemma rstripSlash_decomp (l : PathStr) :
    ∃ k, l = rstripSlash l ++ List.replicate k '/' := by
  unfold rstripSlash
  refine ⟨(l.reverse.takeWhile (fun c => c = '/')).length, ?_⟩
  have hsplit : l.reverse.takeWhile (fun c => c = '/') ++ l.reverse.dropWhile (fun c => c = '/')
      = l.reverse := List.takeWhile_append_dropWhile _ _
  have hrep : l.reverse.takeWhile (fun c => c = '/')
      = List.replicate (l.reverse.takeWhile (fun c => c = '/')).length '/' := by
    apply List.eq_replicate_of_mem
    intro b hb
    have := List.mem_takeWhile_imp hb
    simpa using this
  calc l = l.reverse.reverse := (List.reverse_reverse l).symm
    _ = (l.reverse.takeWhile (fun c => c = '/') ++ l.reverse.dropWhile (fun c => c = '/')).reverse := by
        rw [hsplit]
    _ = (l.reverse.dropWhile (fun c => c = '/')).reverse
          ++ (l.reverse.takeWhile (fun c => c = '/')).reverse := by
        rw [List.reverse_append]
    _ = (l.reverse.dropWhile (fun c => c = '/')).reverse
          ++ List.replicate (l.reverse.takeWhile (fun c => c = '/')).length '/' := by
        rw [← hrep]
        rw [hrep, List.reverse_replicate, ← hrep]

lemma getLast?_rstripSlash_ne (l : PathStr) (h : rstripSlash l ≠ []) :
    (rstripSlash l).getLast? ≠ some '/' := by
  unfold rstripSlash at h ⊢
  set D := l.reverse.dropWhile (fun c => c = '/') with hD
  have hDne : D ≠ [] := by
    intro hnil
    rw [hnil] at h
    exact h rfl
  rw [List.getLast?_reverse, List.head?_eq_head hDne]
  have := List.head_dropWhile_not (fun c => c = '/') l.reverse (by rw [← hD]; exact hDne)
  simp only [← hD, decide_eq_false_iff_not] at this
  intro hcontra
  exact this (Option.some.inj hcontra)


lemma osPathSplit_snd (p : PathStr) : (osPathSplit p).2 = pathTail p := by
  unfold osPathSplit
  split <;> rfl

lemma dropWhile_head_cases (p : Char → Bool) (l : List Char) :
    l.dropWhile p = [] ∨ ∃ x xs, l.dropWhile p = x :: xs ∧ p x = false := by
  induction l with
  | nil => exact Or.inl rfl
  | cons a as ih =>
    rw [List.dropWhile_cons]
    by_cases h : p a = true
    · rw [if_pos h]; exact ih
    · rw [if_neg h]
      exact Or.inr ⟨a, as, rfl, by simpa using h⟩

lemma rootOf_spec (l : PathStr) (h : (extTailOf l).length ≠ l.length) :
    l = rootOf l ++ '.' :: (extTailOf l).reverse := by
  have hsplit : extTailOf l ++ l.reverse.dropWhile (fun c => c ≠ '.') = l.reverse :=
    List.takeWhile_append_dropWhile _ _
  rcases dropWhile_head_cases (fun c => c ≠ '.') l.reverse with hnil | ⟨d, D', hcons, hd⟩
  · exfalso
    apply h
    rw [hnil, List.append_nil] at hsplit
    rw [hsplit]
    simp
  · have hd' : d = '.' := by simpa using hd
    subst hd'
    rw [hcons] at hsplit
    have hrev : l.reverse = extTailOf l ++ '.' :: D' := hsplit.symm
    have hl' : l = D'.reverse ++ '.' :: (extTailOf l).reverse := by
      calc l = l.reverse.reverse := (List.reverse_reverse l).symm
        _ = (extTailOf l ++ '.' :: D').reverse := by rw [← hrev]
        _ = ('.' :: D').reverse ++ (extTailOf l).reverse := by rw [List.reverse_append]
        _ = (D'.reverse ++ ['.']) ++ (extTailOf l).reverse := by rw [List.reverse_cons]
        _ = D'.reverse ++ '.' :: (extTailOf l).reverse := by
              rw [List.append_assoc, List.singleton_append]
    have hlen : l.length - (extTailOf l).length - 1 = D'.length := by
      have hn : l.length = (extTailOf l).length + (D'.length + 1) := by
        have := congrArg List.length hrev
        simpa using this
      omega
    have hroot : rootOf l = D'.reverse := by
      unfold rootOf
      rw [hlen]
      conv_lhs => rw [hl']
      exact List.take_left' (by simp)
    rw [hroot]
    exact hl'

lemma splitext_append (l : PathStr) : (osPathSplitext l).1 ++ (osPathSplitext l).2 = l := by
  unfold osPathSplitext
  by_cases h1 : (extTailOf l).length = l.length
  · rw [if_pos h1]
    simp
  · rw [if_neg h1]
    by_cases h2 : ((rootOf l).any (fun c => c ≠ '.')) = true
    · rw [if_pos h2]
      exact (rootOf_spec l h1).symm
    · rw [if_neg h2]
      simp

lemma splitext_ext_cases (l : PathStr) :
    (osPathSplitext l).2 = [] ∨ ∃ t, (osPathSplitext l).2 = '.' :: t := by
  unfold osPathSplitext
  by_cases h1 : (extTailOf l).length = l.length
  · rw [if_pos h1]
    exact Or.inl rfl
  · rw [if_neg h1]
    by_cases h2 : ((rootOf l).any (fun c => c ≠ '.')) = true
    · rw [if_pos h2]
      exact Or.inr ⟨_, rfl⟩
    · rw [if_neg h2]
      exact Or.inl rfl

lemma splitext_root_subset (l : PathStr) : (osPathSplitext l).1 ⊆ l := by
  unfold osPathSplitext
  by_cases h1 : (extTailOf l).length = l.length
  · rw [if_pos h1]
    exact fun _ h => h
  · rw [if_neg h1]
    by_cases h2 : ((rootOf l).any (fun c => c ≠ '.')) = true
    · rw [if_pos h2]
      exact List.take_subset _ _
    · rw [if_neg h2]
      exact fun _ h => h

lemma osPathSplit_fst_cases (p : PathStr) :
    (pathHeadRaw p = [] ∧ (osPathSplit p).1 = []) ∨
    (pathHeadRaw p ≠ [] ∧ (∀ c ∈ pathHeadRaw p, c = '/') ∧ (osPathSplit p).1 = pathHeadRaw p) ∨
    (pathHeadRaw p ≠ [] ∧ ¬ (∀ c ∈ pathHeadRaw p, c = '/') ∧
      (osPathSplit p).1 = rstripSlash (pathHeadRaw p)) := by
  unfold osPathSplit
  by_cases h1 : pathHeadRaw p = []
  · left
    refine ⟨h1, ?_⟩
    rw [if_neg (by simp [h1])]
    exact h1
  · by_cases h2 : ((pathHeadRaw p).all (fun c => c = '/')) = true
    · right; left
      refine ⟨h1, ?_, ?_⟩
      · intro c hc
        have := List.all_eq_true.mp h2 c hc
        simpa using this
      · rw [if_neg (by simp [h2])]
    · right; right
      refine ⟨h1, ?_, ?_⟩
      · intro hall
        apply h2
        rw [List.all_eq_true]
        intro c hc
        simpa using hall c hc
      · rw [if_pos ⟨h1, h2⟩]

lemma osPathJoin_head_ne (folder X : PathStr) (hX : X.head? ≠ some '/') :
    osPathJoin folder X =
      if folder = [] ∨ folder.getLast? = some '/' then folder ++ X else folder ++ '/' :: X := by
  unfold osPathJoin
  rw [if_neg hX]

lemma derivedPath_eq (p sfx : PathStr) :
    derivedPath p sfx = osPathJoin (osPathSplit p).1 ((osPathSplitext (pathTail p)).1 ++ sfx) := by
  unfold derivedPath
  rw [osPathSplit_snd]

lemma name_no_sep (p : PathStr) : ∀ c ∈ (osPathSplitext (pathTail p)).1, c ≠ '/' :=
  fun c hc => mem_pathTail_ne_sep p c (splitext_root_subset _ hc)

lemma nameX_head_ne_sep (p : PathStr) (c : Char) (s : PathStr) (hc : c ≠ '/') :
    ((osPathSplitext (pathTail p)).1 ++ c :: s).head? ≠ some '/' := by
  cases hn : (osPathSplitext (pathTail p)).1 with
  | nil =>
    simp only [List.nil_append, List.head?_cons]
    intro h
    exact hc (Option.some.inj h)
  | cons a t =>
    simp only [List.cons_append, List.head?_cons]
    intro h
    have ha : a ∈ (osPathSplitext (pathTail p)).1 := by
      rw [hn]; exact List.mem_cons_self a t
    exact name_no_sep p a ha (Option.some.inj h)

lemma derivedPath_inj (p : PathStr) (c1 c2 : Char) (s1 s2 : PathStr)
    (h1 : c1 ≠ '/') (h2 : c2 ≠ '/')
    (h : derivedPath p (c1 :: s1) = derivedPath p (c2 :: s2)) : c1 :: s1 = c2 :: s2 := by
  rw [derivedPath_eq, derivedPath_eq,
      osPathJoin_head_ne _ _ (nameX_head_ne_sep p c1 s1 h1),
      osPathJoin_head_ne _ _ (nameX_head_ne_sep p c2 s2 h2)] at h
  by_cases hcond : (osPathSplit p).1 = [] ∨ (osPathSplit p).1.getLast? = some '/'
  · rw [if_pos hcond, if_pos hcond] at h
    exact List.append_cancel_left (List.append_cancel_left h)
  · rw [if_neg hcond, if_neg hcond] at h
    have h' := List.append_cancel_left h
    injection h' with _ h''
    exact List.append_cancel_left h''

lemma cs_ne_ext (p : PathStr) (c : Char) (s : PathStr) (hdot : c ≠ '.') :
    c :: s ≠ (osPathSplitext (pathTail p)).2 := by
  rcases splitext_ext_cases (pathTail p) with hE | ⟨t, hE⟩
  · rw [hE]
    simp
  · rw [hE]
    intro hh
    injection hh with hh1
    exact hdot hh1

lemma derivedPath_ne_self (p : PathStr) (c : Char) (s : PathStr)
    (hsep : c ≠ '/') (hdot : c ≠ '.') : derivedPath p (c :: s) ≠ p := by
  intro h
  rw [derivedPath_eq, osPathJoin_head_ne _ _ (nameX_head_ne_sep p c s hsep)] at h
  have hNE : (osPathSplitext (pathTail p)).1 ++ (osPathSplitext (pathTail p)).2 = pathTail p :=
    splitext_append (pathTail p)
  have hHT : pathHeadRaw p ++ pathTail p = p := pathHeadRaw_append_pathTail p
  rcases osPathSplit_fst_cases p with ⟨hHR, hf⟩ | ⟨hHR, hall, hf⟩ | ⟨hHR, hnall, hf⟩
  · -- no separator in `p`: the whole path is the filename
    rw [hf, if_pos (Or.inl rfl), List.nil_append] at h
    have htp : pathTail p = p := by
      rw [hHR, List.nil_append] at hHT
      exact hHT
    have hNEp : (osPathSplitext (pathTail p)).1 ++ (osPathSplitext (pathTail p)).2 = p :=
      hNE.trans htp
    exact cs_ne_ext p c s hdot (List.append_cancel_left (h.trans hNEp.symm))
  · -- the directory part is all separators and is kept verbatim
    have hlast : (osPathSplit p).1.getLast? = some '/' := by
      rw [hf]
      exact getLast?_pathHeadRaw p hHR
    rw [if_pos (Or.inr hlast), hf] at h
    have hNEp : pathHeadRaw p
        ++ ((osPathSplitext (pathTail p)).1 ++ (osPathSplitext (pathTail p)).2) = p := by
      rw [hNE]
      exact hHT
    exact cs_ne_ext p c s hdot
      (List.append_cancel_left (List.append_cancel_left (h.trans hNEp.symm)))
  · -- the directory part is stripped of k ≥ 1 trailing separators
    obtain ⟨k, hk⟩ := rstripSlash_decomp (pathHeadRaw p)
    have hfne : rstripSlash (pathHeadRaw p) ≠ [] := by
      intro hnil
      apply hnall
      intro ch hch
      rw [hk, hnil, List.nil_append] at hch
      exact (List.eq_of_mem_replicate hch)
    have hflast : (rstripSlash (pathHeadRaw p)).getLast? ≠ some '/' :=
      getLast?_rstripSlash_ne _ hfne
    have hcond : ¬ ((osPathSplit p).1 = [] ∨ (osPathSplit p).1.getLast? = some '/') := by
      rw [hf]
      rintro (h1 | h2)
      · exact hfne h1
      · exact hflast h2
    rw [if_neg hcond, hf] at h
    have hk1 : k ≠ 0 := by
      intro hk0
      rw [hk0, List.replicate_zero, List.append_nil] at hk
      apply hflast
      rw [← hk]
      exact getLast?_pathHeadRaw p hHR
    obtain ⟨k', rfl⟩ : ∃ k', k = k' + 1 := ⟨k - 1, by omega⟩
    have hp : rstripSlash (pathHeadRaw p)
        ++ '/' :: (List.replicate k' '/' ++ pathTail p) = p := by
      conv_rhs => rw [← hHT, hk]
      rw [List.append_assoc, List.replicate_succ, List.cons_append]
    have h' := List.append_cancel_left (h.trans hp.symm)
    injection h' with _ h''
    rcases Nat.eq_zero_or_pos k' with hk'0 | hk'pos
    · rw [hk'0, List.replicate_zero, List.nil_append] at h''
      exact cs_ne_ext p c s hdot (List.append_cancel_left (h''.trans hNE.symm))
    · obtain ⟨k'', rfl⟩ : ∃ k'', k' = k'' + 1 := ⟨k' - 1, by omega⟩
      have hhead := congrArg List.head? h''
      rw [List.replicate_succ, List.cons_append, List.head?_cons] at hhead
      exact nameX_head_ne_sep p c s hsep hhead

/-! ## Derived-path distinctness -/

lemma ao_sfx : ("_AO.png").data = '_' :: ("AO.png").data := rfl

lemma rough_sfx : ("_Roughness.png").data = '_' :: ("Roughness.png").data := rfl

lemma met_sfx : ("_Metallic.png").data = '_' :: ("Metallic.png").data := rfl

lemma aoPath_ne_self (p : PathStr) : aoPath p ≠ p := by
  unfold aoPath
  rw [ao_sfx]
  exact derivedPath_ne_self p '_' _ (by decide) (by decide)

lemma roughnessPath_ne_self (p : PathStr) : roughnessPath p ≠ p := by
  unfold roughnessPath
  rw [rough_sfx]
  exact derivedPath_ne_self p '_' _ (by decide) (by decide)

lemma metallicPath_ne_self (p : PathStr) : metallicPath p ≠ p := by
  unfold metallicPath
  rw [met_sfx]
  exact derivedPath_ne_self p '_' _ (by decide) (by decide)

lemma aoPath_ne_roughnessPath (p : PathStr) : aoPath p ≠ roughnessPath p := by
  unfold aoPath roughnessPath
  rw [ao_sfx, rough_sfx]
  intro h
  have := derivedPath_inj p '_' '_' _ _ (by decide) (by decide) h
  simp at this

lemma aoPath_ne_metallicPath (p : PathStr) : aoPath p ≠ metallicPath p := by
  unfold aoPath metallicPath
  rw [ao_sfx, met_sfx]
  intro h
  have := derivedPath_inj p '_' '_' _ _ (by decide) (by decide) h
  simp at this

lemma roughnessPath_ne_metallicPath (p : PathStr) : roughnessPath p ≠ metallicPath p := by
  unfold roughnessPath metallicPath
  rw [rough_sfx, met_sfx]
  intro h
  have := derivedPath_inj p '_' '_' _ _ (by decide) (by decide) h
  simp at this

/-! ## Run characterization lemmas -/

lemma fsWrite_ne (fs : FS) (p : PathStr) (d : FileData) (q : PathStr) (h : q ≠ p) :
    fsWrite fs p d q = fs q := if_neg h

lemma run_noFile_eq (fail : PathStr → Bool) (fs : FS) (p : PathStr) (h0 : p = []) :
    split_metallic_roughness fail fs p = (fs, RunResult.noFile) := by
  unfold split_metallic_roughness
  rw [if_pos h0]

lemma run_load_none_eq (fail : PathStr → Bool) (fs : FS) (p : PathStr)
    (h0 : p ≠ []) (h1 : fs p = none) :
    split_metallic_roughness fail fs p = (fs, RunResult.loadError) := by
  unfold split_metallic_roughness
  rw [if_neg h0, h1]

lemma run_load_bytes_eq (fail : PathStr → Bool) (fs : FS) (p : PathStr) (bs : List Nat)
    (h0 : p ≠ []) (h1 : fs p = some (FileData.bytes bs)) :
    split_metallic_roughness fail fs p = (fs, RunResult.loadError) := by
  unfold split_metallic_roughness
  rw [if_neg h0, h1]

lemma run_failAO_eq (fail : PathStr → Bool) (fs : FS) (p : PathStr) (img0 : PImage)
    (h0 : p ≠ []) (h1 : fs p = some (FileData.image img0)) (h2 : fail (aoPath p) = true) :
    split_metallic_roughness fail fs p = (fs, RunResult.writeError (aoPath p)) := by
  unfold split_metallic_roughness
  rw [if_neg h0, h1]
  simp only [h2, if_true]

lemma run_failRough_eq (fail : PathStr → Bool) (fs : FS) (p : PathStr) (img0 : PImage)
    (h0 : p ≠ []) (h1 : fs p = some (FileData.image img0))
    (h2 : fail (aoPath p) = false) (h3 : fail (roughnessPath p) = true) :
    split_metallic_roughness fail fs p =
      (fsWrite fs (aoPath p) (FileData.bytes (encodePNG (getBand (normalizeRGB img0) 0))),
       RunResult.writeError (roughnessPath p)) := by
  unfold split_metallic_roughness
  rw [if_neg h0, h1]
  simp only [h2, h3, imgSplit, Bool.false_eq_true, if_false, if_true]

lemma run_failMet_eq (fail : PathStr → Bool) (fs : FS) (p : PathStr) (img0 : PImage)
    (h0 : p ≠ []) (h1 : fs p = some (FileData.image img0))
    (h2 : fail (aoPath p) = false) (h3 : fail (roughnessPath p) = false)
    (h4 : fail (metallicPath p) = true) :
    split_metallic_roughness fail fs p =
      (fsWrite (fsWrite fs (aoPath p)
          (FileData.bytes (encodePNG (getBand (normalizeRGB img0) 0))))
        (roughnessPath p) (FileData.bytes (encodePNG (getBand (normalizeRGB img0) 1))),
       RunResult.writeError (metallicPath p)) := by
  unfold split_metallic_roughness
  rw [if_neg h0, h1]
  simp only [h2, h3, h4, imgSplit, Bool.false_eq_true, if_false, if_true]

lemma run_success_eq (fail : PathStr → Bool) (fs : FS) (p : PathStr) (img0 : PImage)
    (h0 : p ≠ []) (h1 : fs p = some (FileData.image img0))
    (h2 : fail (aoPath p) = false) (h3 : fail (roughnessPath p) = false)
    (h4 : fail (metallicPath p) = false) :
    split_metallic_roughness fail fs p =
      (fsWrite (fsWrite (fsWrite fs (aoPath p)
          (FileData.bytes (encodePNG (getBand (normalizeRGB img0) 0))))
        (roughnessPath p) (FileData.bytes (encodePNG (getBand (normalizeRGB img0) 1))))
        (metallicPath p) (FileData.bytes (encodePNG (getBand (normalizeRGB img0) 2))),
       RunResult.ok (aoPath p) (roughnessPath p) (metallicPath p)) := by
  unfold split_metallic_roughness
  rw [if_neg h0, h1]
  simp only [h2, h3, h4, imgSplit, Bool.false_eq_true, if_false]

lemma run_ok_inv (fail : PathStr → Bool) (fs : FS) (p : PathStr) (a r m : PathStr)
    (h : (split_metallic_roughness fail fs p).2 = RunResult.ok a r m) :
    p ≠ [] ∧ (∃ img0, fs p = some (FileData.image img0)) ∧
    fail (aoPath p) = false ∧ fail (roughnessPath p) = false ∧
    fail (metallicPath p) = false ∧
    a = aoPath p ∧ r = roughnessPath p ∧ m = metallicPath p := by
  by_cases h0 : p = []
  · rw [run_noFile_eq fail fs p h0] at h
    simp at h
  · cases hfs : fs p with
    | none =>
      rw [run_load_none_eq fail fs p h0 hfs] at h
      simp at h
    | some d =>
      cases d with
      | bytes bs =>
        rw [run_load_bytes_eq fail fs p bs h0 hfs] at h
        simp at h
      | image img0 =>
        by_cases h2 : fail (aoPath p) = true
        · rw [run_failAO_eq fail fs p img0 h0 hfs h2] at h
          simp at h
        · rw [Bool.not_eq_true] at h2
          by_cases h3 : fail (roughnessPath p) = true
          · rw [run_failRough_eq fail fs p img0 h0 hfs h2 h3] at h
            simp at h
          · rw [Bool.not_eq_true] at h3
            by_cases h4 : fail (metallicPath p) = true
            · rw [run_failMet_eq fail fs p img0 h0 hfs h2 h3 h4] at h
              simp at h
            · rw [Bool.not_eq_true] at h4
              rw [run_success_eq fail fs p img0 h0 hfs h2 h3 h4] at h
              simp only [RunResult.ok.injEq] at h
              exact ⟨h0, ⟨img0, rfl⟩, h2, h3, h4, h.1.symm, h.2.1.symm, h.2.2.symm⟩

/-! ## Pixel-level lemmas -/

lemma pixel_index_lt {x y w h : Nat} (hx : x < w) (hy : y < h) : y * w + x < w * h := by
  have h1 : y * w + x < (y + 1) * w := by
    rw [Nat.succ_mul]
    omega
  have h2 : (y + 1) * w ≤ h * w := Nat.mul_le_mul_right w hy
  calc y * w + x < (y + 1) * w := h1
    _ ≤ h * w := h2
    _ = w * h := Nat.mul_comm h w

lemma getpx_getBand (img : PImage) (i x y : Nat) (hx : x < img.width) (hy : y < img.height)
    (hlen : img.pixels.length = img.width * img.height) :
    (getBand img i).getpx x y = [(img.getpx x y).getD i 0] := by
  unfold getBand PImage.getpx
  simp only
  have hidx : y * img.width + x < img.pixels.length := by
    rw [hlen]
    exact pixel_index_lt hx hy
  simp only [List.getD_eq_getElem?_getD, List.getElem?_map, List.getElem?_eq_getElem hidx,
    Option.map_some', Option.getD_some]

lemma getD_take_three (l : List Nat) (i : Nat) (h : i < 3) :
    (l.take 3).getD i 0 = l.getD i 0 := by
  rw [List.getD_eq_getElem?_getD, List.getD_eq_getElem?_getD, List.getElem?_take_of_lt h]

/-! ## Test fixtures used by the witnesses and counterexamples -/

/-- A 2×1 RGB image. -/
def rgbTestImage : PImage :=
  { mode := Mode.RGB, width := 2, height := 1, palette := [],
    pixels := [[10, 20, 30], [40, 50, 60]] }

/-- A 1×1 RGBA image with a nonzero alpha value. -/
def rgbaTestImage : PImage :=
  { mode := Mode.RGBA, width := 1, height := 1, palette := [],
    pixels := [[7, 8, 9, 123]] }

/-- The same RGBA image with a different alpha value. -/
def rgbaTestImage2 : PImage :=
  { mode := Mode.RGBA, width := 1, height := 1, palette := [],
    pixels := [[7, 8, 9, 45]] }

/-- A 1×1 grayscale image. -/
def grayTestImage : PImage :=
  { mode := Mode.L, width := 1, height := 1, palette := [], pixels := [[77]] }

/-- A 1×1 palette image whose single pixel holds index 5, with palette entry
5 mapping to the colour (10, 20, 30). -/
def palTestImage : PImage :=
  { mode := Mode.P, width := 1, height := 1,
    palette := [(0, 0, 0), (0, 0, 0), (0, 0, 0), (0, 0, 0), (0, 0, 0), (10, 20, 30)],
    pixels := [[5]] }

/-- A source path with a directory part and an extension. -/
def srcTestPath : PathStr := ("dir/photo.png").data

/-- A filesystem holding one decodable image at `srcTestPath`. -/
def fsTest : FS :=
  fun q => if q = srcTestPath then some (FileData.image rgbTestImage) else none

/-- A write-failure oracle that never fails. -/
def noFail : PathStr → Bool := fun _ => false

/-! ## Claim theorems -/

/-- C2: splitting a normalized three-channel `W × H` image produces exactly
three single-channel planes, each `W × H`, and for every pixel `(x, y)` and
channel index `i ∈ {0→R, 1→G, 2→B}` the value of plane `i` at `(x, y)`
equals the value of source channel `i` at `(x, y)` verbatim, with no
transformation. -/
theorem claim_c2_extraction_verbatim (img : PImage)
    (_hmode : img.mode = Mode.RGB) (hwf : img.wf) :
    imgSplit img = (getBand img 0, getBand img 1, getBand img 2) ∧
    ∀ i, i < 3 →
      (getBand img i).mode = Mode.L ∧
      (getBand img i).width = img.width ∧
      (getBand img i).height = img.height ∧
      (∀ px ∈ (getBand img i).pixels, px.length = 1) ∧
      ∀ x y, x < img.width → y < img.height →
        (getBand img i).getpx x y = [(img.getpx x y).getD i 0] := by
  refine ⟨rfl, ?_⟩
  intro i hi
  refine ⟨rfl, rfl, rfl, ?_, ?_⟩
  · intro px hpx
    unfold getBand at hpx
    simp only at hpx
    obtain ⟨q, hq, rfl⟩ := List.mem_map.mp hpx
    rfl
  · intro x y hx hy
    exact getpx_getBand img i x y hx hy hwf.1

theorem claim_c2_extraction_verbatim_witness :
    (getBand rgbTestImage 1).getpx 1 0 = [(rgbTestImage.getpx 1 0).getD 1 0] :=
  ((claim_c2_extraction_verbatim rgbTestImage rfl (by decide)).2 1
    (by decide)).2.2.2.2 1 0 (by decide) (by decide)

/-- C3: for every well-formed source image, whatever its original channel
layout, the normalized image has exactly three channels, so extraction
always runs on a three-channel image. -/
theorem claim_c3_normalize_three_channels (img : PImage) (hwf : img.wf) :
    (normalizeRGB img).mode = Mode.RGB ∧
    ∀ px ∈ (normalizeRGB img).pixels, px.length = 3 := by
  unfold normalizeRGB
  by_cases h : img.mode = Mode.RGB
  · rw [if_pos h]
    refine ⟨h, ?_⟩
    intro px hpx
    rw [hwf.2 px hpx, h]
    rfl
  · rw [if_neg h]
    refine ⟨rfl, ?_⟩
    intro px hpx
    unfold convertRGB at hpx
    simp only at hpx
    obtain ⟨q, hq, rfl⟩ := List.mem_map.mp hpx
    have hqlen := hwf.2 q hq
    unfold convertPixelRGB
    cases hm : img.mode
    · rfl
    · rfl
    · rfl
    · rw [hm] at h
      exact absurd rfl h
    · rw [hm] at hqlen
      simp only [List.length_take, hqlen]
      rfl

theorem claim_c3_normalize_three_channels_witness :
    (normalizeRGB grayTestImage).mode = Mode.RGB ∧
    ∀ px ∈ (normalizeRGB grayTestImage).pixels, px.length = 3 :=
  claim_c3_normalize_three_channels grayTestImage (by decide)

/-- C4: a source image that already has exactly three channels (RGB) passes
through normalization unchanged, pixel for pixel and channel for channel. -/
theorem claim_c4_rgb_passthrough (img : PImage) (h : img.mode = Mode.RGB) :
    normalizeRGB img = img := by
  unfold normalizeRGB
  rw [if_pos h]

theorem claim_c4_rgb_passthrough_witness : normalizeRGB rgbTestImage = rgbTestImage :=
  claim_c4_rgb_passthrough rgbTestImage rfl

/-- C5: for a four-channel (RGBA) source the alpha channel is discarded by
normalization: each band of the normalized image is a function of the
corresponding R, G or B channel only, and two RGBA images that agree on
their first three channels normalize identically whatever their alpha
values. -/
theorem claim_c5_alpha_never_used (img : PImage) (hmode : img.mode = Mode.RGBA) :
    (∀ i, i < 3 →
      (getBand (normalizeRGB img) i).pixels = img.pixels.map (fun px => [px.getD i 0])) ∧
    (∀ img2, img2.mode = Mode.RGBA → img2.width = img.width → img2.height = img.height →
      img2.pixels.map (fun px => px.take 3) = img.pixels.map (fun px => px.take 3) →
      normalizeRGB img2 = normalizeRGB img) := by
  have hne : ¬ img.mode = Mode.RGB := by
    rw [hmode]
    decide
  constructor
  · intro i hi
    unfold normalizeRGB
    rw [if_neg hne]
    unfold getBand convertRGB
    simp only [List.map_map]
    apply List.map_congr_left
    intro px hpx
    simp only [Function.comp_apply]
    unfold convertPixelRGB
    rw [hmode]
    show [(px.take 3).getD i 0] = [px.getD i 0]
    rw [getD_take_three px i hi]
  · intro img2 hm2 hw2 hh2 hpx2
    have hne2 : ¬ img2.mode = Mode.RGB := by
      rw [hm2]
      decide
    unfold normalizeRGB
    rw [if_neg hne, if_neg hne2]
    unfold convertRGB
    simp only [PImage.mk.injEq]
    refine ⟨trivial, hw2, hh2, trivial, ?_⟩
    have e2 : ∀ px ∈ img2.pixels, convertPixelRGB img2.mode img2.palette px = px.take 3 := by
      intro px _
      unfold convertPixelRGB
      rw [hm2]
    have e1 : ∀ px ∈ img.pixels, convertPixelRGB img.mode img.palette px = px.take 3 := by
      intro px _
      unfold convertPixelRGB
      rw [hmode]
    calc img2.pixels.map (convertPixelRGB img2.mode img2.palette)
        = img2.pixels.map (fun px => px.take 3) := List.map_congr_left e2
      _ = img.pixels.map (fun px => px.take 3) := hpx2
      _ = img.pixels.map (convertPixelRGB img.mode img.palette) := (List.map_congr_left e1).symm

theorem claim_c5_alpha_never_used_witness :
    normalizeRGB rgbaTestImage2 = normalizeRGB rgbaTestImage :=
  (claim_c5_alpha_never_used rgbaTestImage rfl).2 rgbaTestImage2 rfl rfl rfl (by decide)

/-- A filesystem holding the palette image at path `tex.png`. -/
def fsPal : FS :=
  fun q => if q = ("tex.png").data then some (FileData.image palTestImage) else none

/-- A write-failure oracle failing exactly on the AO output of `srcTestPath`. -/
def failAO : PathStr → Bool := fun q => decide (q = aoPath srcTestPath)

lemma fsWrite_same (fs : FS) (p : PathStr) (d : FileData) : fsWrite fs p d p = some d :=
  if_pos rfl

/-- C1: a successful run writes exactly three output files, at
`D/N_AO.png` from the red band, `D/N_Roughness.png` from the green band and
`D/N_Metallic.png` from the blue band, where `D` is the source's directory
and `N` its extension-free base name; no other path is touched, and the
derived names do not depend on the source extension. -/
theorem claim_c1_output_naming (fail : PathStr → Bool) (fs : FS) (p : PathStr)
    (a r m : PathStr)
    (h : (split_metallic_roughness fail fs p).2 = RunResult.ok a r m) :
    a = osPathJoin (osPathSplit p).1
      ((osPathSplitext (osPathSplit p).2).1 ++ ("_AO.png").data) ∧
    r = osPathJoin (osPathSplit p).1
      ((osPathSplitext (osPathSplit p).2).1 ++ ("_Roughness.png").data) ∧
    m = osPathJoin (osPathSplit p).1
      ((osPathSplitext (osPathSplit p).2).1 ++ ("_Metallic.png").data) ∧
    (∃ img0, fs p = some (FileData.image img0) ∧
      (split_metallic_roughness fail fs p).1 a =
        some (FileData.bytes (encodePNG (getBand (normalizeRGB img0) 0))) ∧
      (split_metallic_roughness fail fs p).1 r =
        some (FileData.bytes (encodePNG (getBand (normalizeRGB img0) 1))) ∧
      (split_metallic_roughness fail fs p).1 m =
        some (FileData.bytes (encodePNG (getBand (normalizeRGB img0) 2)))) ∧
    (∀ q, q ≠ a → q ≠ r → q ≠ m → (split_metallic_roughness fail fs p).1 q = fs q) ∧
    (∀ p2 : PathStr, (osPathSplit p2).1 = (osPathSplit p).1 →
      (osPathSplitext (osPathSplit p2).2).1 = (osPathSplitext (osPathSplit p).2).1 →
      aoPath p2 = a ∧ roughnessPath p2 = r ∧ metallicPath p2 = m) := by
  obtain ⟨h0, ⟨img0, hfs⟩, h2, h3, h4, ha, hr, hm⟩ := run_ok_inv fail fs p a r m h
  subst ha
  subst hr
  subst hm
  have hrun := run_success_eq fail fs p img0 h0 hfs h2 h3 h4
  rw [hrun]
  dsimp only
  refine ⟨rfl, rfl, rfl, ⟨img0, hfs, ?_, ?_, ?_⟩, ?_, ?_⟩
  · rw [fsWrite_ne _ _ _ _ (aoPath_ne_metallicPath p),
        fsWrite_ne _ _ _ _ (aoPath_ne_roughnessPath p), fsWrite_same]
  · rw [fsWrite_ne _ _ _ _ (roughnessPath_ne_metallicPath p), fsWrite_same]
  · rw [fsWrite_same]
  · intro q hqa hqr hqm
    rw [fsWrite_ne _ _ _ _ hqm, fsWrite_ne _ _ _ _ hqr, fsWrite_ne _ _ _ _ hqa]
  · intro p2 hsp hname
    unfold aoPath roughnessPath metallicPath derivedPath
    rw [hsp, hname]
    exact ⟨rfl, rfl, rfl⟩

theorem claim_c1_output_naming_witness :
    aoPath srcTestPath = osPathJoin (osPathSplit srcTestPath).1
      ((osPathSplitext (osPathSplit srcTestPath).2).1 ++ ("_AO.png").data) :=
  (claim_c1_output_naming noFail fsTest srcTestPath
    (aoPath srcTestPath) (roughnessPath srcTestPath) (metallicPath srcTestPath)
    (by decide)).1

/-- C6 counterexample: on a palette-indexed (single-channel) source the
Normalizer neither replicates the stored channel value into all three
channels nor terminates the run with an error before extraction: it
resolves the index through the palette and the run completes, writing all
three outputs. -/
theorem claim_c6_counterexample :
    (normalizeRGB palTestImage).pixels ≠ [[5, 5, 5]] ∧
    (normalizeRGB palTestImage).pixels = [[10, 20, 30]] ∧
    (split_metallic_roughness noFail fsPal ("tex.png").data).2 =
      RunResult.ok (aoPath ("tex.png").data) (roughnessPath ("tex.png").data)
        (metallicPath ("tex.png").data) ∧
    (split_metallic_roughness noFail fsPal ("tex.png").data).1
      (aoPath ("tex.png").data) ≠ none := by
  refine ⟨by decide, by decide, ?_, ?_⟩
  · rw [run_success_eq noFail fsPal ("tex.png").data palTestImage (by decide) (by decide)
      rfl rfl rfl]
  · rw [run_success_eq noFail fsPal ("tex.png").data palTestImage (by decide) (by decide)
      rfl rfl rfl]
    dsimp only
    rw [fsWrite_ne _ _ _ _ (aoPath_ne_metallicPath _),
        fsWrite_ne _ _ _ _ (aoPath_ne_roughnessPath _), fsWrite_same]
    intro hc
    cases hc

/-- C6 amended: the code never raises a channel-count error; normalization
is total. A grayscale (`L`) source is replicated into all three channels; a
palette-indexed (`P`) source is resolved through its palette to RGB colour
values; in either case the run proceeds to extraction and, absent write
failures, writes all three outputs. -/
theorem claim_c6_fewer_channels_amended (img : PImage) :
    (img.mode = Mode.L →
      (normalizeRGB img).pixels
        = img.pixels.map (fun px => [px.getD 0 0, px.getD 0 0, px.getD 0 0])) ∧
    (img.mode = Mode.P →
      (normalizeRGB img).pixels
        = img.pixels.map (fun px =>
            [(img.palette.getD (px.getD 0 0) (0, 0, 0)).1,
             (img.palette.getD (px.getD 0 0) (0, 0, 0)).2.1,
             (img.palette.getD (px.getD 0 0) (0, 0, 0)).2.2])) ∧
    ∀ fail fs p, p ≠ [] → fs p = some (FileData.image img) →
      fail (aoPath p) = false → fail (roughnessPath p) = false →
      fail (metallicPath p) = false →
      (split_metallic_roughness fail fs p).2 =
        RunResult.ok (aoPath p) (roughnessPath p) (metallicPath p) := by
  refine ⟨?_, ?_, ?_⟩
  · intro hL
    have hne : ¬ img.mode = Mode.RGB := by
      rw [hL]
      decide
    unfold normalizeRGB
    rw [if_neg hne]
    unfold convertRGB
    apply List.map_congr_left
    intro px _
    unfold convertPixelRGB
    rw [hL]
  · intro hP
    have hne : ¬ img.mode = Mode.RGB := by
      rw [hP]
      decide
    unfold normalizeRGB
    rw [if_neg hne]
    unfold convertRGB
    apply List.map_congr_left
    intro px _
    unfold convertPixelRGB
    rw [hP]
  · intro fail fs p h0 h1 h2 h3 h4
    rw [run_success_eq fail fs p img h0 h1 h2 h3 h4]

theorem claim_c6_fewer_channels_amended_witness :
    (normalizeRGB grayTestImage).pixels = [[77, 77, 77]] ∧
    (normalizeRGB palTestImage).pixels = [[10, 20, 30]] ∧
    (split_metallic_roughness noFail fsPal ("tex.png").data).2 =
      RunResult.ok (aoPath ("tex.png").data) (roughnessPath ("tex.png").data)
        (metallicPath ("tex.png").data) :=
  ⟨by rw [(claim_c6_fewer_channels_amended grayTestImage).1 rfl]; decide,
   by rw [(claim_c6_fewer_channels_amended palTestImage).2.1 rfl]; decide,
   (claim_c6_fewer_channels_amended palTestImage).2.2 noFail fsPal ("tex.png").data
     (by decide) (by decide) rfl rfl rfl⟩

/-- C7: when the source path is missing, unreadable, or not a decodable
raster image, the run fails at the Loader stage with a load error and the
filesystem is left untouched — zero output files are produced. -/
theorem claim_c7_load_error (fail : PathStr → Bool) (fs : FS) (p : PathStr)
    (hp : p ≠ [])
    (h : fs p = none ∨ ∃ bs, fs p = some (FileData.bytes bs)) :
    split_metallic_roughness fail fs p = (fs, RunResult.loadError) := by
  rcases h with h | ⟨bs, h⟩
  · exact run_load_none_eq fail fs p hp h
  · exact run_load_bytes_eq fail fs p bs hp h

theorem claim_c7_load_error_witness :
    split_metallic_roughness noFail fsTest ("missing.png").data
      = (fsTest, RunResult.loadError) :=
  claim_c7_load_error noFail fsTest ("missing.png").data (by decide) (Or.inl (by decide))

/-- C8 counterexample: with a write failure on the AO path only — exactly
one of the three writes fails — the run reports a single write error for
that path and stops; the Roughness and Metallic files do not exist
afterwards, contradicting the claim that all three writes are attempted
and that the other two outputs exist on disk. -/
theorem claim_c8_counterexample :
    (split_metallic_roughness failAO fsTest srcTestPath).2 =
      RunResult.writeError (aoPath srcTestPath) ∧
    (split_metallic_roughness failAO fsTest srcTestPath).1 (roughnessPath srcTestPath)
      = none ∧
    (split_metallic_roughness failAO fsTest srcTestPath).1 (metallicPath srcTestPath)
      = none := by
  rw [run_failAO_eq failAO fsTest srcTestPath rgbTestImage (by decide) (by decide) (by decide)]
  refine ⟨rfl, by decide, by decide⟩

/-- C8 amended: the writer attempts the three saves in order AO, Roughness,
Metallic and aborts at the first failing save, reporting that single path:
earlier writes remain on disk, later writes are never attempted, and no
combined success/failure result is produced. -/
theorem claim_c8_first_failure_aborts (fail : PathStr → Bool) (fs : FS) (p : PathStr)
    (img0 : PImage) (h0 : p ≠ []) (h1 : fs p = some (FileData.image img0)) :
    (fail (aoPath p) = true →
      split_metallic_roughness fail fs p = (fs, RunResult.writeError (aoPath p))) ∧
    (fail (aoPath p) = false → fail (roughnessPath p) = true →
      split_metallic_roughness fail fs p =
        (fsWrite fs (aoPath p) (FileData.bytes (encodePNG (getBand (normalizeRGB img0) 0))),
         RunResult.writeError (roughnessPath p))) ∧
    (fail (aoPath p) = false → fail (roughnessPath p) = false →
      fail (metallicPath p) = true →
      split_metallic_roughness fail fs p =
        (fsWrite (fsWrite fs (aoPath p)
            (FileData.bytes (encodePNG (getBand (normalizeRGB img0) 0))))
          (roughnessPath p) (FileData.bytes (encodePNG (getBand (normalizeRGB img0) 1))),
         RunResult.writeError (metallicPath p))) :=
  ⟨run_failAO_eq fail fs p img0 h0 h1,
   run_failRough_eq fail fs p img0 h0 h1,
   run_failMet_eq fail fs p img0 h0 h1⟩

theorem claim_c8_first_failure_aborts_witness :
    split_metallic_roughness failAO fsTest srcTestPath =
      (fsTest, RunResult.writeError (aoPath srcTestPath)) :=
  (claim_c8_first_failure_aborts failAO fsTest srcTestPath rgbTestImage
    (by decide) (by decide)).1 (by decide)

/-- C9: the pipeline is deterministic and embeds no timestamp: running the
splitter a second time on the same unchanged source, over the filesystem a
successful run produced, writes byte-identical output files and returns
the identical filesystem and result. -/
theorem claim_c9_idempotent (fail : PathStr → Bool) (fs : FS) (p : PathStr)
    (a r m : PathStr)
    (h : (split_metallic_roughness fail fs p).2 = RunResult.ok a r m) :
    split_metallic_roughness fail (split_metallic_roughness fail fs p).1 p =
      split_metallic_roughness fail fs p := by
  obtain ⟨h0, ⟨img0, hfs⟩, h2, h3, h4, _, _, _⟩ := run_ok_inv fail fs p a r m h
  have hrun := run_success_eq fail fs p img0 h0 hfs h2 h3 h4
  have hfs1 : (split_metallic_roughness fail fs p).1 p = some (FileData.image img0) := by
    rw [hrun]
    dsimp only
    rw [fsWrite_ne _ _ _ _ (Ne.symm (metallicPath_ne_self p)),
        fsWrite_ne _ _ _ _ (Ne.symm (roughnessPath_ne_self p)),
        fsWrite_ne _ _ _ _ (Ne.symm (aoPath_ne_self p))]
    exact hfs
  have hrun2 := run_success_eq fail (split_metallic_roughness fail fs p).1 p img0
    h0 hfs1 h2 h3 h4
  rw [hrun2, hrun]
  dsimp only
  simp only [Prod.mk.injEq]
  refine ⟨?_, trivial⟩
  funext q
  simp only [fsWrite]
  by_cases hqm : q = metallicPath p
  · simp [hqm]
  · by_cases hqr : q = roughnessPath p
    · simp [hqm, hqr]
    · by_cases hqa : q = aoPath p
      · simp [hqm, hqr, hqa]
      · simp [hqm, hqr, hqa]

theorem claim_c9_idempotent_witness :
    split_metallic_roughness noFail (split_metallic_roughness noFail fsTest srcTestPath).1
        srcTestPath
      = split_metallic_roughness noFail fsTest srcTestPath :=
  claim_c9_idempotent noFail fsTest srcTestPath
    (aoPath srcTestPath) (roughnessPath srcTestPath) (metallicPath srcTestPath) (by decide)

/-- C10: for a non-empty source path the three derived output paths are
pairwise distinct and none of them equals the source path itself: a run
never overwrites its source, and no two planes are written to the same
file. -/
theorem claim_c10_paths_distinct (p : PathStr) (_hp : p ≠ []) :
    aoPath p ≠ roughnessPath p ∧ aoPath p ≠ metallicPath p ∧
    roughnessPath p ≠ metallicPath p ∧
    aoPath p ≠ p ∧ roughnessPath p ≠ p ∧ metallicPath p ≠ p :=
  ⟨aoPath_ne_roughnessPath p, aoPath_ne_metallicPath p, roughnessPath_ne_metallicPath p,
   aoPath_ne_self p, roughnessPath_ne_self p, metallicPath_ne_self p⟩

theorem claim_c10_paths_distinct_witness :
    aoPath srcTestPath ≠ roughnessPath srcTestPath ∧
    aoPath srcTestPath ≠ metallicPath srcTestPath ∧
    roughnessPath srcTestPath ≠ metallicPath srcTestPath ∧
    aoPath srcTestPath ≠ srcTestPath ∧
    roughnessPath srcTestPath ≠ srcTestPath ∧
    metallicPath srcTestPath ≠ srcTestPath :=
  claim_c10_paths_distinct srcTestPath (by decide)
